import Mathlib

/-!
Shallow embedding of `src/visualizer.py` (dependency-graph visualizer for
Ubuntu packages).

The metadata source (`apt-cache depends <package>` in the Python code) is
abstracted as a function `source : String → List String` returning the
lines of the command's standard output (`result.stdout.splitlines()`).
Everything downstream of that boundary is translated from the source:

* `parse_deps` models the parsing loop in `get_deps` (lines 33-38 of
  `visualizer.py`): keep lines whose stripped form starts with `Depends:`,
  take `line.split('Depends:')[1].strip()` as the dependency name, and
  collect the results into a set (modelled as a deduplicated list).
* `get_deps` models the recursive inner function (lines 18-42): the depth
  check, the visited set, the dict assignment and the recursive loop over
  the discovered dependencies.  Python's recursion is bounded by
  `current_depth`; the Lean function carries an extra `fuel : Nat` that is
  kept equal to `(max_depth + 1 - current_depth).toNat`, so `fuel = 0`
  exactly when `current_depth > max_depth` (lemma `fuel_zero_iff_depth`),
  making the recursion structural without changing behaviour.
* `fetch_dependencies` models the top-level function (lines 6-45); the
  `repo_url` parameter is accepted and, as in the source, never used.
* `build_puml_graph` models the serializer (lines 47-59).
* `empty_graph_error` models the driver's `if not dependencies` check in
  `main` (lines 104-106).

Python's `set` iterates in an unspecified order; the embedding fixes the
order to the (deduplicated) order in which the dependencies were parsed.
Python's `dict` is modelled as an association list with `dict_set`
reproducing dict assignment (overwrite in place, else append).
-/

/-- Python `str.strip()` on a list of characters: drop whitespace from
both ends. -/
def pyStrip (s : List Char) : List Char :=
  ((s.dropWhile Char.isWhitespace).reverse.dropWhile Char.isWhitespace).reverse

/-- `startsWithChars pat s` is Python `s.startswith(pat)`. -/
def startsWithChars : List Char → List Char → Bool
  | [], _ => true
  | _ :: _, [] => false
  | p :: ps, c :: cs => p = c && startsWithChars ps cs

/-- Index of the leftmost occurrence of `pat` in `text`, if any. -/
def findPat (pat : List Char) : List Char → Option Nat
  | [] => if startsWithChars pat [] then some 0 else none
  | c :: rest =>
    if startsWithChars pat (c :: rest) then some 0
    else (findPat pat rest).map (· + 1)

/-- Python `text.split(pat)[1]` for non-empty `pat`: the segment after the
first occurrence of `pat`, up to the next (non-overlapping) occurrence.
Returns `[]` when `pat` does not occur (Python would raise `IndexError`;
the call site guards against this case). -/
def pySplitGet1 (pat text : List Char) : List Char :=
  match findPat pat text with
  | none => []
  | some i =>
    let rest := text.drop (i + pat.length)
    match findPat pat rest with
    | none => rest
    | some j => rest.take j

/-- The literal `'Depends:'` used by the parsing loop. -/
def dependsPat : List Char := "Depends:".toList

/-- One iteration of the parsing loop in `get_deps`:
`if line.strip().startswith('Depends:'): dep = line.split('Depends:')[1].strip()`. -/
def parse_dep_line (line : String) : Option String :=
  if startsWithChars dependsPat (pyStrip line.toList) then
    some (String.mk (pyStrip (pySplitGet1 dependsPat line.toList)))
  else
    none

/-- The set `package_deps` built by the parsing loop over the output
lines, as a deduplicated list. -/
def parse_deps (lines : List String) : List String :=
  (lines.filterMap parse_dep_line).dedup

/-- Python dict assignment `d[k] = v` on an association list: overwrite in
place when the key is present, otherwise append.  In `get_deps` the key is
always fresh (the package was not yet visited), so only the append branch
is ever taken from the initial state. -/
def dict_set (d : List (String × List String)) (k : String) (v : List String) :
    List (String × List String) :=
  if d.any (fun kv => kv.1 = k) then
    d.map (fun kv => if kv.1 = k then (k, v) else kv)
  else
    d ++ [(k, v)]

/-- The mutable state captured by the closure in `fetch_dependencies`:
the `dependencies` dict and the `visited` set. -/
structure DepState where
  dependencies : List (String × List String)
  visited : List String
  deriving Repr, DecidableEq

/-- The inner recursive function `get_deps(package, current_depth)` of
`visualizer.py`.  `fuel` is maintained equal to
`(max_depth + 1 - current_depth).toNat`, so the `fuel = 0` base case
coincides with the `current_depth > max_depth` early return; the
`current_depth > max_depth` test is nevertheless kept verbatim. -/
def get_deps (source : String → List String) (max_depth : Int) :
    Nat → String → Int → DepState → DepState
  | 0, _, _, st => st
  | fuel + 1, package, current_depth, st =>
    if current_depth > max_depth ∨ package ∈ st.visited then st
    else
      let package_deps := parse_deps (source package)
      let st' : DepState :=
        ⟨dict_set st.dependencies package package_deps, package :: st.visited⟩
      package_deps.foldl
        (fun s dep => get_deps source max_depth fuel dep (current_depth + 1) s) st'

/-- The final state of `fetch_dependencies`: run `get_deps` from the
starting package at depth 1 with empty `dependencies` and `visited`.
The initial fuel is `(max_depth + 1 - 1).toNat = max_depth.toNat`. -/
def fetch_state (source : String → List String) (package_name : String)
    (max_depth : Int) : DepState :=
  get_deps source max_depth max_depth.toNat package_name 1 ⟨[], []⟩

/-- `fetch_dependencies(package_name, max_depth, repo_url)` of
`visualizer.py`, with the metadata source passed explicitly.  As in the
source, `repo_url` is accepted but unused. -/
def fetch_dependencies (package_name : String) (max_depth : Int)
    (repo_url : String) (source : String → List String) :
    List (String × List String) :=
  (fetch_state source package_name max_depth).dependencies

/-- One PlantUML edge line `"package" --> "dep"` plus newline, as produced
by the f-string in `build_puml_graph`. -/
def puml_edge (package dep : String) : String :=
  "\"" ++ package ++ "\" --> \"" ++ dep ++ "\"\n"

/-- `build_puml_graph(dependencies)` of `visualizer.py`: start marker,
one edge line per (package, dependency) pair accumulated by string
concatenation, end marker. -/
def build_puml_graph (dependencies : List (String × List String)) : String :=
  (dependencies.foldl
    (fun graph pd =>
      pd.2.foldl (fun g dep => g ++ puml_edge pd.1 dep) graph)
    "@startuml\n") ++ "@enduml"

/-- The list of edge lines of a graph, one per (package, dependency)
pair, in serialization order: the specification-side description of what
`build_puml_graph` emits between the markers. -/
def puml_edges (dependencies : List (String × List String)) : List String :=
  dependencies.flatMap (fun pd => pd.2.map (puml_edge pd.1))

/-- Concatenation of a list of strings, leftmost first. -/
def concat_all (l : List String) : String :=
  l.foldl (fun a b => a ++ b) ""

/-- The driver's failure test `if not dependencies` in `main`
(lines 104-106): when it holds, a message is printed and the process
exits with status 1. -/
def empty_graph_error (g : List (String × List String)) : Bool :=
  g.isEmpty

/-- The keys of the dependency dict, in insertion order. -/
def graph_keys (d : List (String × List String)) : List String :=
  d.map Prod.fst

/-- Invariant maintained by `get_deps` relative to a fixed source: the
dict keys are pairwise distinct, the visited set and the key set hold the
same packages, and every recorded value is the parse of the source's
answer for its key. -/
def source_inv (source : String → List String) (st : DepState) : Prop :=
  (graph_keys st.dependencies).Nodup ∧
  (∀ q, q ∈ st.visited ↔ q ∈ graph_keys st.dependencies) ∧
  (∀ p v, (p, v) ∈ st.dependencies → v = parse_deps (source p))

/-- `st_extends st st'`: `st'` is a later state of the same traversal —
its dict extends `st`'s on the right, and its visited set contains
`st`'s. -/
def st_extends (st st' : DepState) : Prop :=
  (∃ t, st'.dependencies = st.dependencies ++ t) ∧
  (∀ q, q ∈ st.visited → q ∈ st'.visited)

/-- Metadata source with the cyclic dependency relation `A -> {B}`,
`B -> {A}` of the cycle-handling scenario. -/
def src_cycle : String → List String := fun p =>
  if p = "A" then ["  Depends: B"]
  else if p = "B" then ["  Depends: A"] else []

/-- Metadata source that yields no output at all for any package: the
query for every package, the starting one included, produces no
dependency information. -/
def src_silent : String → List String := fun _ => []

/-- Metadata source for the scenario of §8 of the spec: `app` depends on
`libfoo` and `libbar`, `libbar` depends on `libfoo`, `libfoo` has no
dependencies. -/
def src_app : String → List String := fun p =>
  if p = "app" then ["  Depends: libfoo", "  Depends: libbar"]
  else if p = "libbar" then ["  Depends: libfoo"] else []

/-- Metadata source in which package `A` declares itself as its only
dependency. -/
def src_self : String → List String := fun p =>
  if p = "A" then ["Depends: A"] else []

/-- Metadata source that answers normally for `A` but fails for every
other package: the query's output is an error line that the parsing loop
ignores, so the parsed dependency set is empty. -/
def src_fail_rest : String → List String := fun p =>
  if p = "A" then ["  Depends: B", "  Depends: C"]
  else ["E: Unable to locate package"]

/-- The fuel value `(max_depth + 1 - current_depth).toNat` carried by the
embedding is zero exactly when the source's early-return test
`current_depth > max_depth` fires. -/
theorem fuel_zero_iff_depth (max_depth current_depth : Int) :
    (max_depth + 1 - current_depth).toNat = 0 ↔ current_depth > max_depth := by
  omega

/-- Unfolding: with no fuel (i.e. `current_depth > max_depth`),
`get_deps` returns the state unchanged. -/
theorem get_deps_zero (source : String → List String) (max_depth : Int)
    (package : String) (current_depth : Int) (st : DepState) :
    get_deps source max_depth 0 package current_depth st = st := rfl

/-- Unfolding: when the early-return test fires, `get_deps` returns the
state unchanged. -/
theorem get_deps_succ_of_stop (source : String → List String) (max_depth : Int)
    (fuel : Nat) (package : String) (current_depth : Int) (st : DepState)
    (h : current_depth > max_depth ∨ package ∈ st.visited) :
    get_deps source max_depth (fuel + 1) package current_depth st = st := by
  simp only [get_deps, if_pos h]

/-- Unfolding: when the early-return test does not fire, `get_deps` marks
the package visited, records its parsed dependencies, and folds the
recursion over them. -/
theorem get_deps_succ_of_go (source : String → List String) (max_depth : Int)
    (fuel : Nat) (package : String) (current_depth : Int) (st : DepState)
    (h : ¬(current_depth > max_depth ∨ package ∈ st.visited)) :
    get_deps source max_depth (fuel + 1) package current_depth st =
      (parse_deps (source package)).foldl
        (fun s dep => get_deps source max_depth fuel dep (current_depth + 1) s)
        ⟨dict_set st.dependencies package (parse_deps (source package)),
          package :: st.visited⟩ := by
  simp only [get_deps, if_neg h]

theorem st_extends_refl (st : DepState) : st_extends st st :=
  ⟨⟨[], by simp⟩, fun _ h => h⟩

theorem st_extends_trans {a b c : DepState}
    (h1 : st_extends a b) (h2 : st_extends b c) : st_extends a c := by
  obtain ⟨⟨t1, ht1⟩, hv1⟩ := h1
  obtain ⟨⟨t2, ht2⟩, hv2⟩ := h2
  exact ⟨⟨t1 ++ t2, by rw [ht2, ht1, List.append_assoc]⟩, fun q hq => hv2 q (hv1 q hq)⟩

/-- The invariant holds of the empty initial state. -/
theorem source_inv_init (source : String → List String) :
    source_inv source ⟨[], []⟩ := by
  refine ⟨?_, ?_, ?_⟩ <;> simp [graph_keys]

/-- On a fresh key, Python dict assignment is an append. -/
theorem dict_set_of_fresh (d : List (String × List String)) (k : String)
    (v : List String) (h : k ∉ graph_keys d) :
    dict_set d k v = d ++ [(k, v)] := by
  have : d.any (fun kv => kv.1 = k) = false := by
    simp only [List.any_eq_false, decide_eq_true_eq]
    intro kv hkv hk
    exact h (by simpa [graph_keys, hk] using List.mem_map_of_mem Prod.fst hkv)
  simp [dict_set, this]

/-- The body of the `else` branch of `get_deps` — mark visited, record the
parsed dependency set — preserves the invariant and extends the state. -/
theorem step_inv (source : String → List String) (package : String)
    (st : DepState) (hp : package ∉ st.visited) (hs : source_inv source st) :
    source_inv source
      ⟨dict_set st.dependencies package (parse_deps (source package)),
        package :: st.visited⟩ ∧
    st_extends st
      ⟨dict_set st.dependencies package (parse_deps (source package)),
        package :: st.visited⟩ := by
  obtain ⟨hnd, hiff, hval⟩ := hs
  have hk : package ∉ graph_keys st.dependencies := fun h => hp ((hiff package).mpr h)
  have hset := dict_set_of_fresh st.dependencies package (parse_deps (source package)) hk
  refine ⟨⟨?_, ?_, ?_⟩, ⟨?_, ?_⟩⟩
  · rw [hset]
    have hkeys : graph_keys (st.dependencies ++ [(package, parse_deps (source package))]) =
        graph_keys st.dependencies ++ [package] := by simp [graph_keys]
    rw [hkeys, List.nodup_append]
    exact ⟨hnd, List.nodup_singleton package,
      fun a ha hb => hk ((List.mem_singleton.mp hb) ▸ ha)⟩
  · intro q
    simp only [hset, graph_keys, List.map_append, List.map_cons, List.map_nil,
      List.mem_cons, List.mem_append, List.mem_singleton]
    rw [show (q ∈ List.map Prod.fst st.dependencies) = (q ∈ graph_keys st.dependencies) from rfl,
      ← hiff q]
    tauto
  · intro p v hpv
    rw [hset] at hpv
    rcases List.mem_append.mp hpv with h | h
    · exact hval p v h
    · simp only [List.mem_singleton, Prod.mk.injEq] at h
      rw [h.2, h.1]
  · exact ⟨[(package, parse_deps (source package))], hset⟩
  · intro q hq
    exact List.mem_cons_of_mem package hq

/-- Folding a state transformer that preserves the invariant and extends
the state over a list preserves the invariant and extends the state. -/
theorem foldl_inv_ext (source : String → List String)
    (f : DepState → String → DepState)
    (hf : ∀ s d, source_inv source s → source_inv source (f s d) ∧ st_extends s (f s d)) :
    ∀ (l : List String) (s : DepState), source_inv source s →
      source_inv source (l.foldl f s) ∧ st_extends s (l.foldl f s) := by
  intro l
  induction l with
  | nil => exact fun s hs => ⟨hs, st_extends_refl s⟩
  | cons d rest ih =>
    intro s hs
    have h1 := hf s d hs
    have h2 := ih (f s d) h1.1
    exact ⟨h2.1, st_extends_trans h1.2 h2.2⟩

/-- `get_deps` preserves the invariant and only extends the state: the
dict grows on the right and the visited set grows. -/
theorem get_deps_inv_ext (source : String → List String) (max_depth : Int) :
    ∀ (fuel : Nat) (package : String) (current_depth : Int) (st : DepState),
      source_inv source st →
      source_inv source (get_deps source max_depth fuel package current_depth st) ∧
      st_extends st (get_deps source max_depth fuel package current_depth st) := by
  intro fuel
  induction fuel with
  | zero => exact fun package cd st hs => ⟨hs, st_extends_refl st⟩
  | succ fuel ih =>
    intro package cd st hs
    by_cases h : cd > max_depth ∨ package ∈ st.visited
    · rw [get_deps_succ_of_stop source max_depth fuel package cd st h]
      exact ⟨hs, st_extends_refl st⟩
    · rw [get_deps_succ_of_go source max_depth fuel package cd st h]
      have hp : package ∉ st.visited := fun hm => h (Or.inr hm)
      have hstep := step_inv source package st hp hs
      have hfold := foldl_inv_ext source
        (fun s dep => get_deps source max_depth fuel dep (cd + 1) s)
        (fun s d hsd => ih d (cd + 1) s hsd)
        (parse_deps (source package)) _ hstep.1
      exact ⟨hfold.1, st_extends_trans hstep.2 hfold.2⟩

/-- Folding two pointwise-equal state transformers gives equal results. -/
theorem foldl_congr_fn (f g : DepState → String → DepState)
    (h : ∀ s d, f s d = g s d) :
    ∀ (l : List String) (s : DepState), l.foldl f s = l.foldl g s := by
  intro l
  induction l with
  | nil => exact fun s => rfl
  | cons d rest ih =>
    intro s
    rw [List.foldl_cons, List.foldl_cons, h, ih]

/-- `get_deps` observes the metadata source only through `parse_deps`:
two sources whose answers parse identically drive identical traversals. -/
theorem get_deps_congr (s1 s2 : String → List String)
    (h : ∀ p, parse_deps (s1 p) = parse_deps (s2 p)) (max_depth : Int) :
    ∀ (fuel : Nat) (package : String) (current_depth : Int) (st : DepState),
      get_deps s1 max_depth fuel package current_depth st =
      get_deps s2 max_depth fuel package current_depth st := by
  intro fuel
  induction fuel with
  | zero => exact fun package cd st => rfl
  | succ fuel ih =>
    intro package cd st
    by_cases hc : cd > max_depth ∨ package ∈ st.visited
    · rw [get_deps_succ_of_stop s1 max_depth fuel package cd st hc,
        get_deps_succ_of_stop s2 max_depth fuel package cd st hc]
    · rw [get_deps_succ_of_go s1 max_depth fuel package cd st hc,
        get_deps_succ_of_go s2 max_depth fuel package cd st hc, h package]
      exact foldl_congr_fn _ _ (fun s d => ih d (cd + 1) s) _ _

/-- Folding string concatenation from an arbitrary accumulator. -/
theorem concat_all_foldl (l : List String) :
    ∀ (a : String), l.foldl (fun x y => x ++ y) a = a ++ concat_all l := by
  induction l with
  | nil => intro a; simp [concat_all, String.append_empty]
  | cons b rest ih =>
    intro a
    have h2 : concat_all (b :: rest) = b ++ concat_all rest := by
      show (b :: rest).foldl (fun x y => x ++ y) "" = b ++ concat_all rest
      rw [List.foldl_cons, String.empty_append, ih b]
    rw [List.foldl_cons, ih, h2, String.append_assoc]

theorem concat_all_cons (a : String) (l : List String) :
    concat_all (a :: l) = a ++ concat_all l := by
  rw [concat_all, List.foldl_cons, String.empty_append, concat_all_foldl]

theorem concat_all_append (l1 l2 : List String) :
    concat_all (l1 ++ l2) = concat_all l1 ++ concat_all l2 := by
  induction l1 with
  | nil => simp [concat_all_cons, String.empty_append]; rfl
  | cons a rest ih =>
    rw [List.cons_append, concat_all_cons, concat_all_cons, ih, String.append_assoc]

/-- The inner loop of `build_puml_graph` appends one edge line per
dependency of a fixed package. -/
theorem build_inner_foldl (package : String) (deps : List String) :
    ∀ (g : String),
      deps.foldl (fun g2 dep => g2 ++ puml_edge package dep) g =
        g ++ concat_all (deps.map (puml_edge package)) := by
  induction deps with
  | nil => intro g; simp [concat_all, String.append_empty]
  | cons d rest ih =>
    intro g
    rw [List.foldl_cons, ih, List.map_cons, concat_all_cons, ← String.append_assoc]

/-- The outer loop of `build_puml_graph` appends the edge lines of every
(package, dependency) pair in order. -/
theorem build_outer_foldl (G : List (String × List String)) :
    ∀ (g : String),
      G.foldl (fun graph pd =>
          pd.2.foldl (fun g2 dep => g2 ++ puml_edge pd.1 dep) graph) g =
        g ++ concat_all (puml_edges G) := by
  induction G with
  | nil => intro g; simp [puml_edges, concat_all, String.append_empty]
  | cons pd rest ih =>
    intro g
    rw [List.foldl_cons, build_inner_foldl, ih,
      show puml_edges (pd :: rest) = pd.2.map (puml_edge pd.1) ++ puml_edges rest from by
        simp [puml_edges],
      concat_all_append, String.append_assoc]

/-- There is one edge line per (package, dependency) pair: the number of
edge lines is the sum of the dependency-set sizes. -/
theorem puml_edges_length (G : List (String × List String)) :
    (puml_edges G).length = (G.map (fun pd => pd.2.length)).sum := by
  induction G with
  | nil => rfl
  | cons pd rest ih =>
    simp [puml_edges, List.flatMap_cons] at ih ⊢
    exact ih

/-- Folding `get_deps` with no fuel is the identity. -/
theorem foldl_get_deps_zero (source : String → List String)
    (max_depth current_depth : Int) :
    ∀ (l : List String) (s : DepState),
      l.foldl (fun s dep => get_deps source max_depth 0 dep current_depth s) s = s := by
  intro l
  induction l with
  | nil => exact fun s => rfl
  | cons d rest ih =>
    intro s
    rw [List.foldl_cons]
    exact ih s

/-- C4: for the source mapping `A -> {B}`, `B -> {A}`, resolving from `A`
with `maxDepth = 5` yields exactly the two-key graph `{A: {B}, B: {A}}` —
no further growth despite the cycle. -/
theorem c4_cycle_example :
    fetch_dependencies "A" 5 "u" src_cycle = [("A", ["B"]), ("B", ["A"])] := by
  decide

/-- C9: the `repo_url` parameter has no effect on resolution — two runs
of `fetch_dependencies` differing only in `repo_url` produce identical
graphs. -/
theorem c9_repo_url_irrelevant (source : String → List String)
    (package_name : String) (max_depth : Int) (u1 u2 : String) :
    fetch_dependencies package_name max_depth u1 source =
    fetch_dependencies package_name max_depth u2 source := rfl

/-- C7: a `maxDepth` of zero or any negative integer yields an empty
dependency graph, for every starting package and every source. -/
theorem c7_nonpositive_depth_empty (source : String → List String)
    (package_name repo_url : String) (max_depth : Int) (h : max_depth ≤ 0) :
    fetch_dependencies package_name max_depth repo_url source = [] := by
  unfold fetch_dependencies fetch_state
  rw [show max_depth.toNat = 0 from by omega]
  rfl

/-- Witness for C7 at `maxDepth = 0`. -/
theorem c7_nonpositive_depth_witness :
    (0 : Int) ≤ 0 ∧ fetch_dependencies "A" 0 "u" src_cycle = [] :=
  ⟨by decide, c7_nonpositive_depth_empty src_cycle "A" "u" 0 (by decide)⟩

/-- C2: the embedding of `resolve` is a total function (termination), and
for every source and every `maxDepth ≥ 1` each package appears as a key
of the resulting graph at most once. -/
theorem c2_termination_keys_nodup (source : String → List String)
    (package_name repo_url : String) (max_depth : Int) (h : 1 ≤ max_depth) :
    (graph_keys (fetch_dependencies package_name max_depth repo_url source)).Nodup :=
  ((get_deps_inv_ext source max_depth max_depth.toNat package_name 1 ⟨[], []⟩
      (source_inv_init source)).1).1

/-- Witness for C2 on the cyclic source `A <-> B` with `maxDepth = 5`. -/
theorem c2_keys_nodup_witness :
    (1 : Int) ≤ 5 ∧ (graph_keys (fetch_dependencies "A" 5 "u" src_cycle)).Nodup :=
  ⟨by decide, c2_termination_keys_nodup src_cycle "A" "u" 5 (by decide)⟩

/-- C3 counterexample: with `maxDepth = 1` and a source in which the
starting package `A` lists itself as a dependency, the direct dependency
`A` does appear as a key of the resulting graph, contradicting the
claim's "none of those dependencies appear as keys". -/
theorem c3_depth_one_counterexample :
    fetch_dependencies "A" 1 "u" src_self = [("A", ["A"])] ∧
    "A" ∈ parse_deps (src_self "A") ∧
    "A" ∈ graph_keys (fetch_dependencies "A" 1 "u" src_self) := by
  decide

/-- C3 (amended): with `maxDepth = 1` the resulting graph is exactly the
single entry mapping the starting package to its direct dependencies; in
particular no dependency other than the starting package itself can
appear as a key, and no dependency is expanded at depth 2. -/
theorem c3_depth_one_amended (source : String → List String)
    (package_name repo_url : String) :
    fetch_dependencies package_name 1 repo_url source =
      [(package_name, parse_deps (source package_name))] := by
  have hvempty : package_name ∉ (⟨[], []⟩ : DepState).visited :=
    List.not_mem_nil package_name
  have hc : ¬((1 : Int) > 1 ∨ package_name ∈ (⟨[], []⟩ : DepState).visited) :=
    fun hor => hor.elim (fun hgt => by omega) hvempty
  unfold fetch_dependencies fetch_state
  rw [show ((1 : Int).toNat) = 0 + 1 from rfl,
    get_deps_succ_of_go source 1 0 package_name 1 ⟨[], []⟩ hc,
    foldl_get_deps_zero]
  rfl

/-- C10: for every source (even one answering nothing for the starting
package) and every `maxDepth ≥ 1`, the starting package is a key of the
resulting graph, the graph is non-empty, and the driver's empty-graph
failure test is false — the exit-1 branch of `main` is unreachable for
`maxDepth ≥ 1`. -/
theorem c10_start_always_key (source : String → List String)
    (package_name repo_url : String) (max_depth : Int) (h : 1 ≤ max_depth) :
    package_name ∈ graph_keys (fetch_dependencies package_name max_depth repo_url source) ∧
    fetch_dependencies package_name max_depth repo_url source ≠ [] ∧
    empty_graph_error (fetch_dependencies package_name max_depth repo_url source) = false := by
  obtain ⟨k, hk⟩ : ∃ k, max_depth.toNat = k + 1 := ⟨max_depth.toNat - 1, by omega⟩
  have hvempty : package_name ∉ (⟨[], []⟩ : DepState).visited :=
    List.not_mem_nil package_name
  have hc : ¬((1 : Int) > max_depth ∨ package_name ∈ (⟨[], []⟩ : DepState).visited) :=
    fun hor => hor.elim (fun hgt => by omega) hvempty
  have hstep := step_inv source package_name ⟨[], []⟩ hvempty (source_inv_init source)
  have hfold := foldl_inv_ext source
    (fun s dep => get_deps source max_depth k dep (1 + 1) s)
    (fun s d hs => get_deps_inv_ext source max_depth k d (1 + 1) s hs)
    (parse_deps (source package_name)) _ hstep.1
  obtain ⟨t, ht⟩ := hfold.2.1
  have hmain : fetch_dependencies package_name max_depth repo_url source =
      [(package_name, parse_deps (source package_name))] ++ t := by
    unfold fetch_dependencies fetch_state
    rw [hk, get_deps_succ_of_go source max_depth k package_name 1 ⟨[], []⟩ hc]
    exact ht
  refine ⟨?_, ?_, ?_⟩ <;> rw [hmain]
  · simp [graph_keys]
  · simp
  · simp [empty_graph_error]

/-- Witness for C10 with a source that answers nothing at all. -/
theorem c10_start_always_key_witness :
    (1 : Int) ≤ 1 ∧
    ("X" ∈ graph_keys (fetch_dependencies "X" 1 "u" src_silent) ∧
      fetch_dependencies "X" 1 "u" src_silent ≠ [] ∧
      empty_graph_error (fetch_dependencies "X" 1 "u" src_silent) = false) :=
  ⟨by decide, c10_start_always_key src_silent "X" "u" 1 (by decide)⟩

/-- C1 counterexample: when the metadata source yields no dependency
information for the starting package, resolution does NOT produce an
empty graph — it records the starting package with an empty set — and
the driver's empty-graph failure branch is not taken, so no failure is
reported, contradicting the claim. -/
theorem c1_start_failure_counterexample :
    parse_deps (src_silent "A") = [] ∧
    fetch_dependencies "A" 3 "http://archive.ubuntu.com/ubuntu" src_silent = [("A", [])] ∧
    empty_graph_error
      (fetch_dependencies "A" 3 "http://archive.ubuntu.com/ubuntu" src_silent) = false := by
  decide

/-- C1 (amended): if the metadata source yields no dependency information
for the starting package (and `maxDepth ≥ 1`), resolution produces the
single entry mapping the starting package to the empty set; the graph is
therefore non-empty, the driver's empty-graph test is false, and no
failure is reported. -/
theorem c1_start_failure_amended (source : String → List String)
    (package_name repo_url : String) (max_depth : Int)
    (h1 : 1 ≤ max_depth) (h2 : parse_deps (source package_name) = []) :
    fetch_dependencies package_name max_depth repo_url source = [(package_name, [])] ∧
    empty_graph_error (fetch_dependencies package_name max_depth repo_url source) = false := by
  obtain ⟨k, hk⟩ : ∃ k, max_depth.toNat = k + 1 := ⟨max_depth.toNat - 1, by omega⟩
  have hvempty : package_name ∉ (⟨[], []⟩ : DepState).visited :=
    List.not_mem_nil package_name
  have hc : ¬((1 : Int) > max_depth ∨ package_name ∈ (⟨[], []⟩ : DepState).visited) :=
    fun hor => hor.elim (fun hgt => by omega) hvempty
  have hmain : fetch_dependencies package_name max_depth repo_url source =
      [(package_name, [])] := by
    unfold fetch_dependencies fetch_state
    rw [hk, get_deps_succ_of_go source max_depth k package_name 1 ⟨[], []⟩ hc, h2]
    rfl
  exact ⟨hmain, by rw [hmain]; rfl⟩

/-- Witness for C1 (amended) with the silent source. -/
theorem c1_start_failure_witness :
    ((1 : Int) ≤ 3 ∧ parse_deps (src_silent "pkg") = []) ∧
    (fetch_dependencies "pkg" 3 "u" src_silent = [("pkg", [])] ∧
      empty_graph_error (fetch_dependencies "pkg" 3 "u" src_silent) = false) :=
  ⟨⟨by decide, by decide⟩,
    c1_start_failure_amended src_silent "pkg" "u" 3 (by decide) (by decide)⟩

/-- C6: if the source's answer for some package parses to no dependencies
(a failed query), the traversal does not abort: the run coincides with a
run whose source cleanly maps that package to no output, and any entry
recorded for that package carries the empty dependency set. -/
theorem c6_query_failure_recovery (source : String → List String)
    (package_name repo_url q : String) (max_depth : Int)
    (h : parse_deps (source q) = []) :
    fetch_dependencies package_name max_depth repo_url source =
      fetch_dependencies package_name max_depth repo_url
        (fun p => if p = q then [] else source p) ∧
    ∀ v, (q, v) ∈ fetch_dependencies package_name max_depth repo_url source → v = [] := by
  have hcong : ∀ p, parse_deps (source p) =
      parse_deps ((fun p => if p = q then [] else source p) p) := by
    intro p
    show parse_deps (source p) = parse_deps (if p = q then [] else source p)
    by_cases hp : p = q
    · subst hp
      rw [if_pos rfl, h]
      rfl
    · rw [if_neg hp]
  constructor
  · exact congrArg DepState.dependencies
      (get_deps_congr source _ hcong max_depth max_depth.toNat package_name 1 ⟨[], []⟩)
  · intro v hv
    have hinv := (get_deps_inv_ext source max_depth max_depth.toNat package_name 1 ⟨[], []⟩
        (source_inv_init source)).1
    exact (hinv.2.2 q v hv).trans h

/-- Witness for C6: the source fails for the non-starting package `B`
(its output is an error line with no `Depends:` entry). -/
theorem c6_query_failure_witness :
    parse_deps (src_fail_rest "B") = [] ∧
    fetch_dependencies "A" 3 "u" src_fail_rest =
      fetch_dependencies "A" 3 "u" (fun p => if p = "B" then [] else src_fail_rest p) :=
  ⟨by decide, (c6_query_failure_recovery src_fail_rest "A" "u" "B" 3 (by decide)).1⟩

/-- C8: every package in the final visited set appears as a key of the
resulting graph, mapped to the parse of the source's answer for it; in
particular a visited package with no dependencies is mapped to the empty
set rather than omitted. -/
theorem c8_visited_has_key (source : String → List String)
    (package_name repo_url p : String) (max_depth : Int)
    (h : p ∈ (fetch_state source package_name max_depth).visited) :
    (p, parse_deps (source p)) ∈ fetch_dependencies package_name max_depth repo_url source ∧
    (parse_deps (source p) = [] →
      (p, []) ∈ fetch_dependencies package_name max_depth repo_url source) := by
  have hinv := (get_deps_inv_ext source max_depth max_depth.toNat package_name 1 ⟨[], []⟩
      (source_inv_init source)).1
  have hk : p ∈ graph_keys (fetch_state source package_name max_depth).dependencies :=
    (hinv.2.1 p).mp h
  simp only [graph_keys, List.mem_map] at hk
  obtain ⟨⟨a, b⟩, hkv, hfst⟩ := hk
  have ha : a = p := hfst
  have hv : b = parse_deps (source a) := hinv.2.2 a b hkv
  have h1 : (p, parse_deps (source p)) ∈
      fetch_dependencies package_name max_depth repo_url source := by
    rw [← ha, ← hv]
    exact hkv
  exact ⟨h1, fun he => he ▸ h1⟩

/-- Witness for C8: in the §8 scenario `libfoo` is visited, has no
dependencies, and is recorded with the empty set. -/
theorem c8_visited_has_key_witness :
    "libfoo" ∈ (fetch_state src_app "app" 2).visited ∧
    (("libfoo", parse_deps (src_app "libfoo")) ∈ fetch_dependencies "app" 2 "u" src_app ∧
      (parse_deps (src_app "libfoo") = [] →
        ("libfoo", []) ∈ fetch_dependencies "app" 2 "u" src_app)) :=
  ⟨by decide, c8_visited_has_key src_app "app" "u" "libfoo" 2 (by decide)⟩

/-- C5: `build_puml_graph G` is the start marker, then exactly one edge
line per (package, dependency) pair of `G` in order, then the end marker;
the number of edge lines is the sum of the dependency-set sizes; and the
empty graph serializes to the two markers alone. -/
theorem c5_serialization_complete :
    (∀ G : List (String × List String),
      build_puml_graph G = "@startuml\n" ++ concat_all (puml_edges G) ++ "@enduml" ∧
      (puml_edges G).length = (G.map (fun pd => pd.2.length)).sum) ∧
    build_puml_graph [] = "@startuml\n@enduml" := by
  refine ⟨fun G => ⟨?_, puml_edges_length G⟩, ?_⟩
  · unfold build_puml_graph
    rw [build_outer_foldl]
  · decide
